import Mathlib

/-!
Verification of the autonomous ensemble orchestration core
(autonomous_ensemble.py): guide parsing, the three-stage model pipeline
with convergence iteration, append-only accumulation state, checkpoint
persistence, the workflow engine with resume, and guide chaining.

The Python source is embedded shallowly: the generation client is a
function parameter (its HTTP transport and retries are external), the
filesystem is an explicit map from paths to contents, and checkpoint
files are a map from paths to JSON values (the on-disk byte encoding is
external; persistence is modelled at the JSON value level, matching the
value round-trip contract).
-/

/-- Error from the generation client after its own retries are exhausted
(ConnectionError or TimeoutError raised by OllamaClient.query). -/
inductive GenError where
  | connection (msg : String)
  | timeout (msg : String)
deriving DecidableEq

/-- Configuration for the autonomous ensemble system (dataclass Config). -/
structure Config where
  ollama_api : String := "http://localhost:11434/api/generate"
  model_a : String := "qwen2.5-coder:7b"
  model_b : String := "deepseek-coder-v2:16b"
  model_c : String := "codestral:22b"
  temp_creative : Rat := 0.8
  temp_analytical : Rat := 0.3
  temp_adversarial : Rat := 0.7
  max_tokens : Nat := 2000
  max_iterations : Nat := 3
  output_file : String := "final_output.txt"
  verbose : Bool := false

/-- Context for processing a single step (dataclass StepContext). -/
structure StepContext where
  step_number : Nat
  step_description : String
  spec : String
  previous_output : String := ""
  draft : String := ""
  corrected : String := ""
  secured : String := ""

/-- Request payload for the Ollama API (dataclass OllamaRequest). -/
structure OllamaRequest where
  model : String
  prompt : String
  temperature : Rat
  max_tokens : Nat := 2000
  stream : Bool := false

/-- The generation client as consumed by the pipeline: one blocking query
returning response text, or a fatal error once its retries are exhausted. -/
abbrev GenQuery := OllamaRequest → Except GenError String

/-- Optional hooks for custom processing between pipeline stages
(dataclass PipelineHooks). -/
structure PipelineHooks where
  post_draft : Option (String → String) := none
  post_correction : Option (String → String) := none
  post_security : Option (String → String) := none

/-- Apply an optional hook, the identity when absent. -/
def applyHook : Option (String → String) → String → String
  | some f, s => f s
  | none, s => s

/-- The filesystem as seen by the program: text file contents by path, and
the directory listing used by GuideLoader when reporting alternatives
(os.listdir of the directory containing the given path, empty if the
directory does not exist). -/
structure FileSys where
  files : String → Option String
  dirListing : String → List String

/-- Python str.strip on a list of characters. -/
def stripChars (cs : List Char) : List Char :=
  ((cs.dropWhile Char.isWhitespace).reverse.dropWhile Char.isWhitespace).reverse

/-- Split a character list into lines, as iterating a file line by line. -/
def splitLines (cs : List Char) : List (List Char) :=
  match cs with
  | [] => [[]]
  | c :: rest =>
    match splitLines rest with
    | [] => [[]]
    | h :: t => if c = '\n' then [] :: h :: t else (c :: h) :: t

/-- Python str.endswith. -/
def strEndsWith (s tail : String) : Bool :=
  tail.data.isSuffixOf s.data

/-- Value of a decimal digit string, as Python int of the matched group. -/
def digitsToNat (ds : List Char) : Nat :=
  ds.foldl (fun n c => n * 10 + (c.toNat - 48)) 0

/-- Case-insensitive match of the literal word Step at the start of a line,
returning the remainder. -/
def GuideLoader.stepWord : List Char → Option (List Char)
  | c1 :: c2 :: c3 :: c4 :: rest =>
    if c1.toLower = 's' && c2.toLower = 't' && c3.toLower = 'e' && c4.toLower = 'p' then
      some rest
    else none
  | _ => none

/-- The regex STEP_PATTERN applied to a line: whitespace, digits, a colon,
optional whitespace, then the rest (at least one character, group 2 after
regex backtracking); returns the ordinal and the stripped description. -/
def GuideLoader.matchStep (cs : List Char) : Option (Nat × String) :=
  match GuideLoader.stepWord cs with
  | none => none
  | some r0 =>
    if (r0.takeWhile Char.isWhitespace).isEmpty then none
    else
      let r1 := r0.dropWhile Char.isWhitespace
      let ds := r1.takeWhile Char.isDigit
      if ds.isEmpty then none
      else
        match r1.dropWhile Char.isDigit with
        | ':' :: r3 =>
          if r3.isEmpty then none
          else
            let g2 := match r3.dropWhile Char.isWhitespace with
              | [] => r3.reverse.take 1
              | g => g
            some (digitsToNat ds, String.mk (stripChars g2))
        | _ => none

/-- One line of the guide file: stripped, then matched against STEP_PATTERN. -/
def GuideLoader.parseLine (line : List Char) : Option (Nat × String) :=
  GuideLoader.matchStep (stripChars line)

/-- Insertion into the steps dictionary keyed by ordinal: a later line with
the same ordinal replaces the earlier description. -/
def GuideLoader.dictInsert (k : Nat) (v : String) : List (Nat × String) → List (Nat × String)
  | [] => [(k, v)]
  | (k', v') :: rest =>
    if k' = k then (k, v) :: rest else (k', v') :: GuideLoader.dictInsert k v rest

/-- Build the steps dictionary from the lines of the guide file. -/
def GuideLoader.parseLines (lines : List (List Char)) : List (Nat × String) :=
  lines.foldl
    (fun d l =>
      match GuideLoader.parseLine l with
      | some (n, desc) => GuideLoader.dictInsert n desc d
      | none => d)
    []

/-- Return the step descriptions in ascending order of ordinal
(the comprehension over sorted dictionary keys). -/
def GuideLoader.sortedSteps (d : List (Nat × String)) : List String :=
  (List.insertionSort (· ≤ ·) (d.map Prod.fst)).filterMap (fun k => d.lookup k)

/-- The alternatively-named guides reported by GuideLoader when the file is
missing: directory entries ending in the guide suffix. -/
def GuideLoader.availableGuides (fs : FileSys) (path : String) : List String :=
  (fs.dirListing path).filter (fun f => strEndsWith f "_guide.txt")

/-- Failure modes of GuideLoader.load: FileNotFoundError carrying the list
of available guides, and ValueError for a guide with no parsable step. -/
inductive GuideError where
  | notFound (available : List String)
  | empty
deriving DecidableEq

/-- GuideLoader.load: parse the guide file into an ordered list of step
descriptions, or fail. -/
def GuideLoader.load (fs : FileSys) (path : String) : Except GuideError (List String) :=
  match fs.files path with
  | none => .error (.notFound (GuideLoader.availableGuides fs path))
  | some content =>
    let d := GuideLoader.parseLines (splitLines content.data)
    if d.isEmpty then .error .empty
    else .ok (GuideLoader.sortedSteps d)

/-- Workflow state across step processing (dataclass StateManager). -/
structure StateManager where
  cumulative_output : String := ""
  current_step_index : Nat := 0
  step_outputs : List String := []
deriving DecidableEq

/-- StateManager.add_step_output: append a completed step's output. -/
def StateManager.add_step_output (st : StateManager) (output : String) : StateManager :=
  let formatted := "\n--- Step " ++ toString (st.current_step_index + 1) ++ " Output ---\n" ++ output ++ "\n"
  { cumulative_output := st.cumulative_output ++ formatted,
    current_step_index := st.current_step_index + 1,
    step_outputs := st.step_outputs ++ [output] }

/-- StateManager.get_context: cumulative output as context for the next step. -/
def StateManager.get_context (st : StateManager) : String :=
  st.cumulative_output

/-- JSON values, the shape json.dump writes and json.load reads back. -/
inductive Json where
  | null
  | bool (b : Bool)
  | num (n : Int)
  | str (s : String)
  | arr (xs : List Json)
  | obj (fields : List (String × Json))

/-- Checkpoint state for workflow resumption (dataclass Checkpoint). -/
structure Checkpoint where
  guide_file : String
  spec : String
  completed_steps : Nat
  cumulative_output : String
  step_outputs : List String
  timestamp : String
deriving DecidableEq

/-- Checkpoint.to_dict: the JSON object serialized by save. -/
def Checkpoint.to_dict (c : Checkpoint) : Json :=
  .obj
    [("guide_file", .str c.guide_file),
     ("spec", .str c.spec),
     ("completed_steps", .num (Int.ofNat c.completed_steps)),
     ("cumulative_output", .str c.cumulative_output),
     ("step_outputs", .arr (c.step_outputs.map Json.str)),
     ("timestamp", .str c.timestamp)]

/-- Read a JSON string field. -/
def Json.asStr : Json → Option String
  | .str s => some s
  | _ => none

/-- Read a JSON number as a non-negative integer. -/
def Json.asNat : Json → Option Nat
  | .num n => if n < 0 then none else some n.toNat
  | _ => none

/-- Read a list of JSON strings. -/
def jsonStrList : List Json → Option (List String)
  | [] => some []
  | .str s :: rest => (jsonStrList rest).map (fun l => s :: l)
  | _ => none

/-- Read a JSON array of strings. -/
def Json.asStrList : Json → Option (List String)
  | .arr xs => jsonStrList xs
  | _ => none

/-- Checkpoint.from_dict: reconstruct a checkpoint from its JSON object;
none when the structure does not conform. -/
def Checkpoint.from_dict (j : Json) : Option Checkpoint :=
  match j with
  | .obj fields => do
    let gf ← (fields.lookup "guide_file").bind Json.asStr
    let sp ← (fields.lookup "spec").bind Json.asStr
    let cs ← (fields.lookup "completed_steps").bind Json.asNat
    let co ← (fields.lookup "cumulative_output").bind Json.asStr
    let so ← (fields.lookup "step_outputs").bind Json.asStrList
    let ts ← (fields.lookup "timestamp").bind Json.asStr
    some ⟨gf, sp, cs, co, so, ts⟩
  | _ => none

/-- Checkpoint storage: JSON value present at each path. -/
abbrev CkStore := String → Option Json

/-- Checkpoint.save: serialize to the given path, overwriting existing
content there. -/
def Checkpoint.save (c : Checkpoint) (path : String) (store : CkStore) : CkStore :=
  fun q => if q = path then some c.to_dict else store q

/-- Failure modes of Checkpoint.load: missing file, or content that does
not conform to the expected structure. -/
inductive CkError where
  | fileNotFound
  | corrupt
deriving DecidableEq

/-- Checkpoint.load: deserialize the checkpoint stored at a path. -/
def Checkpoint.load (path : String) (store : CkStore) : Except CkError Checkpoint :=
  match store path with
  | none => .error .fileNotFound
  | some j =>
    match Checkpoint.from_dict j with
    | some c => .ok c
    | none => .error .corrupt

/-- Prompt for Model A, the creative draft. -/
def ModelPipeline.build_creative_prompt (ctx : StepContext) : String :=
  ctx.previous_output ++ "\n" ++
  "Apply this step to the spec '" ++ ctx.spec ++ "': " ++ ctx.step_description ++ "\n" ++
  "Generate a creative draft of code or plan."

/-- Prompt for Model B, error correction. -/
def ModelPipeline.build_correction_prompt (ctx : StepContext) (current_output : String) : String :=
  ctx.previous_output ++ "\n" ++
  "Strictly analyze this for errors, bugs, inefficiencies:\n" ++
  current_output ++ "\n" ++
  "Correct without adding new features."

/-- Prompt for Model C, the security scan. -/
def ModelPipeline.build_security_prompt (ctx : StepContext) (current_output : String) : String :=
  ctx.previous_output ++ "\n" ++
  "Act as a hacker: Identify security flaws in the following and suggest fixes:\n" ++
  current_output ++ "\n" ++
  "List vulnerabilities and provide corrected code."

/-- Stage 1: single-pass creative draft with Model A. -/
def ModelPipeline.creative_draft (cfg : Config) (query : GenQuery) (ctx : StepContext) :
    Except GenError String :=
  query
    { model := cfg.model_a,
      prompt := ModelPipeline.build_creative_prompt ctx,
      temperature := cfg.temp_creative,
      max_tokens := cfg.max_tokens }

/-- The convergence loop shared by the two iterative stages: up to the given
number of passes, query once per pass, stop as soon as the new output equals
the current text; the second component counts the generation calls made. -/
def ModelPipeline.iterLoop (step : String → Except GenError String) :
    Nat → String → Except GenError (String × Nat)
  | 0, current => .ok (current, 0)
  | fuel + 1, current =>
    match step current with
    | .error e => .error e
    | .ok new_output =>
      if new_output = current then .ok (current, 1)
      else
        match ModelPipeline.iterLoop step fuel new_output with
        | .error e => .error e
        | .ok (r, k) => .ok (r, k + 1)

/-- One pass of the error-correction stage: the Model B request for the
current text. -/
def ModelPipeline.correction_pass (cfg : Config) (query : GenQuery) (ctx : StepContext)
    (current : String) : Except GenError String :=
  query
    { model := cfg.model_b,
      prompt := ModelPipeline.build_correction_prompt ctx current,
      temperature := cfg.temp_analytical,
      max_tokens := cfg.max_tokens }

/-- One pass of the security-hardening stage: the Model C request for the
current text. -/
def ModelPipeline.security_pass (cfg : Config) (query : GenQuery) (ctx : StepContext)
    (current : String) : Except GenError String :=
  query
    { model := cfg.model_c,
      prompt := ModelPipeline.build_security_prompt ctx current,
      temperature := cfg.temp_adversarial,
      max_tokens := cfg.max_tokens }

/-- Stage 2: iterative error correction with Model B, starting from the
draft; returns the resulting text and the number of generation calls. -/
def ModelPipeline.error_correction (cfg : Config) (query : GenQuery) (ctx : StepContext) :
    Except GenError (String × Nat) :=
  ModelPipeline.iterLoop (ModelPipeline.correction_pass cfg query ctx)
    cfg.max_iterations ctx.draft

/-- Stage 3: iterative security hardening with Model C, starting from the
corrected text; returns the resulting text and the number of calls. -/
def ModelPipeline.security_hardening (cfg : Config) (query : GenQuery) (ctx : StepContext) :
    Except GenError (String × Nat) :=
  ModelPipeline.iterLoop (ModelPipeline.security_pass cfg query ctx)
    cfg.max_iterations ctx.corrected

/-- ModelPipeline.process: the three stages in order, each output passed
through its optional hook before the next stage consumes it. -/
def ModelPipeline.process (cfg : Config) (hooks : PipelineHooks) (query : GenQuery)
    (ctx : StepContext) : Except GenError String :=
  match ModelPipeline.creative_draft cfg query ctx with
  | .error e => .error e
  | .ok draft0 =>
    let ctx1 := { ctx with draft := applyHook hooks.post_draft draft0 }
    match ModelPipeline.error_correction cfg query ctx1 with
    | .error e => .error e
    | .ok (corr0, _) =>
      let ctx2 := { ctx1 with corrected := applyHook hooks.post_correction corr0 }
      match ModelPipeline.security_hardening cfg query ctx2 with
      | .error e => .error e
      | .ok (sec0, _) => .ok (applyHook hooks.post_security sec0)

/-- Errors terminating a workflow run: guide load failure, a corrupt resume
checkpoint, or a generation failure propagated from the client. -/
inductive RunError where
  | guide (e : GuideError)
  | checkpointCorrupt
  | generation (e : GenError)
deriving DecidableEq

/-- The ambient collaborators of one engine: configuration, hooks, the
generation client, and the wall clock supplying the ISO timestamp for the
checkpoint written after the step at each index. -/
structure RunEnv where
  cfg : Config
  hooks : PipelineHooks := {}
  query : GenQuery
  ts : Nat → String := fun _ => ""

/-- WorkflowEngine.save_checkpoint builds this snapshot of the current
state after a step completes. -/
def WorkflowEngine.mk_checkpoint (guide_file spec : String) (st : StateManager)
    (timestamp : String) : Checkpoint :=
  { guide_file := guide_file,
    spec := spec,
    completed_steps := st.current_step_index,
    cumulative_output := st.cumulative_output,
    step_outputs := st.step_outputs,
    timestamp := timestamp }

/-- The step loop of WorkflowEngine.run: process each remaining step through
the pipeline, append its output to the state, and, when a checkpoint file is
configured, persist a snapshot after the step. Returns the final state (or
the propagated error) together with the checkpoint storage as left behind. -/
def WorkflowEngine.runSteps (env : RunEnv) (guide_file spec_content : String)
    (cf : Option String) :
    List String → Nat → StateManager → CkStore → Except RunError StateManager × CkStore
  | [], _, st, cks => (.ok st, cks)
  | step_desc :: rest, i, st, cks =>
    let ctx : StepContext :=
      { step_number := i + 1,
        step_description := step_desc,
        spec := spec_content,
        previous_output := st.get_context }
    match ModelPipeline.process env.cfg env.hooks env.query ctx with
    | .error e => (.error (.generation e), cks)
    | .ok step_output =>
      let st' := st.add_step_output step_output
      let cks' := match cf with
        | some p => (WorkflowEngine.mk_checkpoint guide_file spec_content st' (env.ts i)).save p cks
        | none => cks
      WorkflowEngine.runSteps env guide_file spec_content cf rest (i + 1) st' cks'

/-- The specification as resolved at the start of run: the contents of the
file at that path when one exists, else the string itself. -/
def WorkflowEngine.resolve_spec (fs : FileSys) (spec : String) : String :=
  match fs.files spec with
  | some c => c
  | none => spec

/-- WorkflowEngine.run: resolve the specification (file contents when the
path exists), parse the guide, optionally restore state from a resume
checkpoint present on storage, then drive the remaining steps. -/
def WorkflowEngine.run (env : RunEnv) (fs : FileSys) (cf : Option String)
    (spec guide_file : String) (resume_from : Option String) (cks : CkStore) :
    Except RunError String × CkStore :=
  let spec_content := WorkflowEngine.resolve_spec fs spec
  match GuideLoader.load fs guide_file with
  | .error e => (.error (.guide e), cks)
  | .ok steps =>
    let restore : Except RunError (StateManager × Nat) :=
      match resume_from with
      | some p =>
        match cks p with
        | some j =>
          match Checkpoint.from_dict j with
          | some ck =>
            .ok
              ({ cumulative_output := ck.cumulative_output,
                 current_step_index := ck.completed_steps,
                 step_outputs := ck.step_outputs },
               ck.completed_steps)
          | none => .error .checkpointCorrupt
        | none => .ok ({}, 0)
      | none => .ok ({}, 0)
    match restore with
    | .error e => (.error e, cks)
    | .ok (st0, start_step) =>
      match WorkflowEngine.runSteps env guide_file spec_content cf
          (steps.drop start_step) start_step st0 cks with
      | (.ok st, cks') => (.ok st.cumulative_output, cks')
      | (.error e, cks') => (.error e, cks')

/-- os.path.basename for forward-slash paths. -/
def basename (path : String) : String :=
  (path.splitOn "/").getLastD path

/-- Checkpoint file name used by the chain for the guide at an index. -/
def GuideChain.checkpoint_name (dir : String) (idx : Nat) (guide_file : String) : String :=
  dir ++ "/checkpoint_" ++ toString idx ++ "_" ++ basename guide_file ++ ".json"

/-- Per-guide output file name used by the chain. -/
def GuideChain.output_name (idx : Nat) (guide_file : String) : String :=
  "output_" ++ toString idx ++ "_" ++ (basename guide_file).replace ".txt" "" ++ ".txt"

/-- The specification handed to one guide of a chain: the original
specification, prefixed with the accumulated context when there is any. -/
def GuideChain.enhanced_spec (spec ctx : String) : String :=
  if ctx = "" then spec
  else "Previous context:\n" ++ ctx ++ "\n\nCurrent spec:\n" ++ spec

/-- Trace record of one completed guide within a chain run: the enhanced
specification it was given and the output its engine returned. -/
structure ChainEntry where
  enhanced_spec : String
  guide_file : String
  output : String

/-- The loop of GuideChain.run: run each guide with a fresh engine over the
enhanced specification, then append its labelled output to the accumulated
context. Also returns the trace of completed guides. -/
def GuideChain.runAux (env : RunEnv) (fs : FileSys) (checkpoint_dir : Option String)
    (spec : String) :
    List String → Nat → String → CkStore →
      Except RunError String × List ChainEntry × CkStore
  | [], _, ctx, cks => (.ok ctx, [], cks)
  | guide_file :: rest, idx, ctx, cks =>
    let cf := checkpoint_dir.map (fun d => GuideChain.checkpoint_name d idx guide_file)
    let ecfg := { env.cfg with output_file := GuideChain.output_name idx guide_file }
    let espec := GuideChain.enhanced_spec spec ctx
    match WorkflowEngine.run { env with cfg := ecfg } fs cf espec guide_file none cks with
    | (.error e, cks') => (.error e, [], cks')
    | (.ok out, cks') =>
      match GuideChain.runAux env fs checkpoint_dir spec rest (idx + 1)
          (ctx ++ "\n\n--- Output from " ++ guide_file ++ " ---\n" ++ out) cks' with
      | (r, tr, cks'') =>
        (r, { enhanced_spec := espec, guide_file := guide_file, output := out } :: tr, cks'')

/-- GuideChain.run: execute the guides in order starting from an empty
accumulated context, returning the combined context and the trace. -/
def GuideChain.run (env : RunEnv) (fs : FileSys) (checkpoint_dir : Option String)
    (spec : String) (guide_files : List String) (cks : CkStore) :
    Except RunError String × List ChainEntry × CkStore :=
  GuideChain.runAux env fs checkpoint_dir spec guide_files 0 "" cks

/-- The block appended to the cumulative output for the output of the step
with the given 1-based number. -/
def stepBlock (n : Nat) (output : String) : String :=
  "\n--- Step " ++ toString n ++ " Output ---\n" ++ output ++ "\n"

/-- The cumulative string determined by an ordered list of step outputs,
numbering from the given 0-based starting index. -/
def concatFrom (i : Nat) : List String → String
  | [] => ""
  | o :: rest => stepBlock (i + 1) o ++ concatFrom (i + 1) rest

/-- The description carried by the last line of the file that parses with
the given ordinal, none when no line does. -/
def GuideLoader.lastMatch (lines : List (List Char)) (k : Nat) : Option String :=
  lines.foldl
    (fun acc l =>
      match GuideLoader.parseLine l with
      | some (n, d) => if n = k then some d else acc
      | none => acc)
    none

/-- The text held after n successful generation calls of a convergence
stage, starting from the given current text. -/
def ModelPipeline.iterTraj (step : String → Except GenError String) (current : String) :
    Nat → Except GenError String
  | 0 => .ok current
  | n + 1 =>
    match step current with
    | .error e => .error e
    | .ok next => ModelPipeline.iterTraj step next n

/-- Empty checkpoint storage. -/
def emptyCk : CkStore := fun _ => none

/-- A filesystem holding one two-step guide at path g. -/
def fsW : FileSys :=
  { files := fun p => if p = "g" then some "Step 1: A\nStep 2: B" else none,
    dirListing := fun _ => [] }

/-- A generation client that always answers X. -/
def qX : GenQuery := fun _ => .ok "X"

/-- A generation client that always answers b. -/
def qB : GenQuery := fun _ => .ok "b"

/-- An environment whose generation client always answers X. -/
def envW : RunEnv := { cfg := {}, query := qX }

/-- A step context whose draft is the constant client answer X. -/
def ctxX : StepContext :=
  { step_number := 1, step_description := "d", spec := "s", draft := "X" }

/-- A filesystem holding the out-of-order example guide of the spec. -/
def fsEx : FileSys :=
  { files := fun p => if p = "guide.txt" then some "Step 5: Fifth\nStep 1: First\nStep 3: Third" else none,
    dirListing := fun _ => [] }

/-- A step context whose draft differs from the constant client answer. -/
def ctxC4 : StepContext :=
  { step_number := 1, step_description := "d", spec := "s", draft := "a" }

/-- Whether the needle occurs as a contiguous sublist of the haystack. -/
def hasSub (needle : List Char) : List Char → Bool
  | [] => needle.isEmpty
  | c :: rest => needle.isPrefixOf (c :: rest) || hasSub needle rest

/-- A generation client that answers X until the accumulated context
mentions the first step's output, then fails as the real client does once
its connection retries are exhausted. -/
def failingQuery : GenQuery := fun r =>
  if hasSub "Step 1 Output".data r.prompt.data then .error (.connection "down")
  else .ok "X"

/-- Environment built on the failing client. -/
def envFail : RunEnv := { cfg := {}, query := failingQuery }

/-- The accumulation state after the first step of the failing-client run. -/
def stK1 : StateManager := StateManager.add_step_output {} "X"

/-- The checkpoint storage after the first step of the failing-client run. -/
def cksK1 : CkStore :=
  (WorkflowEngine.mk_checkpoint "g" "sp" stK1 (envFail.ts 0)).save "ck" emptyCk

/-- A filesystem holding a file with no parsable step line. -/
def fsE : FileSys :=
  { files := fun p => if p = "e" then some "no steps here" else none,
    dirListing := fun _ => [] }

/-- The output of one two-step engine run of the constant-X client. -/
def outW : String := "\n--- Step 1 Output ---\nX\n\n--- Step 2 Output ---\nX\n"

/-- The enhanced specification received by the second guide of the concrete
two-guide chain. -/
def especW : String :=
  "Previous context:\n\n\n--- Output from g ---\n\n--- Step 1 Output ---\nX\n\n--- Step 2 Output ---\nX\n\n\nCurrent spec:\nsp"

theorem jsonStrList_map_str (l : List String) : jsonStrList (l.map Json.str) = some l := by
  induction l with
  | nil => rfl
  | cons a t ih => simp [jsonStrList, ih]

theorem Checkpoint.from_to (c : Checkpoint) : Checkpoint.from_dict c.to_dict = some c := by
  have h : ¬ ((c.completed_steps : Int) < 0) := by
    simp
  simp [Checkpoint.from_dict, Checkpoint.to_dict, List.lookup, Json.asStr, Json.asNat,
    Json.asStrList, jsonStrList_map_str, h]

/-- C2: loading a checkpoint just saved at a path returns a checkpoint equal
to the saved one in every field, for every checkpoint value and every path,
over any prior storage contents. -/
theorem checkpoint_roundtrip (c : Checkpoint) (p : String) (store : CkStore) :
    Checkpoint.load p (c.save p store) = .ok c := by
  simp [Checkpoint.load, Checkpoint.save, Checkpoint.from_to]

theorem concatFrom_append (o : String) :
    ∀ (l : List String) (i : Nat),
      concatFrom i (l ++ [o]) = concatFrom i l ++ stepBlock (i + l.length + 1) o := by
  intro l
  induction l with
  | nil =>
    intro i
    simp [concatFrom, String.append_empty]
  | cons a t ih =>
    intro i
    have hidx : i + 1 + t.length + 1 = i + (a :: t).length + 1 := by
      simp [List.length_cons]
      omega
    calc concatFrom i ((a :: t) ++ [o])
        = stepBlock (i + 1) a ++ concatFrom (i + 1) (t ++ [o]) := rfl
      _ = stepBlock (i + 1) a ++ (concatFrom (i + 1) t ++ stepBlock (i + 1 + t.length + 1) o) := by
          rw [ih]
      _ = (stepBlock (i + 1) a ++ concatFrom (i + 1) t) ++ stepBlock (i + 1 + t.length + 1) o := by
          rw [String.append_assoc]
      _ = concatFrom i (a :: t) ++ stepBlock (i + (a :: t).length + 1) o := by
          rw [hidx]; rfl

/-- C9: appending a step output preserves the accumulation invariants: the
completed-step count stays equal to the length of the per-step list, the
cumulative string stays the in-order concatenation of the headed outputs,
and the previous cumulative string is only extended, never edited. -/
theorem add_step_output_invariant (st : StateManager) (output : String)
    (hlen : st.current_step_index = st.step_outputs.length)
    (hcum : st.cumulative_output = concatFrom 0 st.step_outputs) :
    (st.add_step_output output).current_step_index
        = (st.add_step_output output).step_outputs.length ∧
    (st.add_step_output output).cumulative_output
        = concatFrom 0 (st.add_step_output output).step_outputs ∧
    (st.add_step_output output).cumulative_output
        = st.cumulative_output ++ stepBlock (st.current_step_index + 1) output := by
  refine ⟨?_, ?_, ?_⟩
  · simp [StateManager.add_step_output, hlen]
  · simp only [StateManager.add_step_output]
    rw [concatFrom_append, hcum, hlen]
    simp [stepBlock]
  · rfl

/-- A witness: the invariant preservation evaluated at the empty state. -/
theorem add_step_output_invariant_witness :
    (StateManager.add_step_output {} "x").current_step_index
        = (StateManager.add_step_output {} "x").step_outputs.length ∧
    (StateManager.add_step_output {} "x").cumulative_output
        = concatFrom 0 (StateManager.add_step_output {} "x").step_outputs ∧
    (StateManager.add_step_output {} "x").cumulative_output
        = StateManager.cumulative_output {} ++ stepBlock (StateManager.current_step_index {} + 1) "x" :=
  add_step_output_invariant {} "x" rfl rfl

theorem GuideLoader.dictInsert_ne_nil (k : Nat) (v : String) (d : List (Nat × String)) :
    GuideLoader.dictInsert k v d ≠ [] := by
  cases d with
  | nil => simp [GuideLoader.dictInsert]
  | cons p rest =>
    simp only [GuideLoader.dictInsert]
    split <;> simp

theorem GuideLoader.foldl_parse_eq_nil (lines : List (List Char)) :
    ∀ d : List (Nat × String),
      (lines.foldl
        (fun d l =>
          match GuideLoader.parseLine l with
          | some (n, desc) => GuideLoader.dictInsert n desc d
          | none => d) d) = []
      ↔ d = [] ∧ ∀ l ∈ lines, GuideLoader.parseLine l = none := by
  induction lines with
  | nil => intro d; simp
  | cons l ls ih =>
    intro d
    simp only [List.foldl_cons]
    cases hpl : GuideLoader.parseLine l with
    | none =>
      simp only [hpl]
      rw [ih]
      constructor
      · rintro ⟨h1, h2⟩
        refine ⟨h1, ?_⟩
        intro x hx
        rcases List.mem_cons.mp hx with h | h
        · rw [h]; exact hpl
        · exact h2 x h
      · rintro ⟨h1, h2⟩
        exact ⟨h1, fun x hx => h2 x (List.mem_cons_of_mem l hx)⟩
    | some p =>
      simp only [hpl]
      rw [ih]
      constructor
      · rintro ⟨h1, _⟩
        exact absurd h1 (GuideLoader.dictInsert_ne_nil p.1 p.2 d)
      · rintro ⟨_, h2⟩
        have := h2 l (List.mem_cons_self l ls)
        rw [this] at hpl
        exact absurd hpl (by simp)

theorem GuideLoader.parseLines_eq_nil_iff (lines : List (List Char)) :
    GuideLoader.parseLines lines = [] ↔ ∀ l ∈ lines, GuideLoader.parseLine l = none := by
  unfold GuideLoader.parseLines
  rw [GuideLoader.foldl_parse_eq_nil]
  simp

/-- C8: GuideLoader.load fails in exactly two ways: a missing file yields
the not-found error listing the guide-suffixed entries of the directory, a
present file none of whose lines parse as a step yields the empty error,
and otherwise it returns the parsed steps. -/
theorem guideLoader_load_cases (fs : FileSys) (path : String) :
    (fs.files path = none →
      GuideLoader.load fs path
        = .error (.notFound ((fs.dirListing path).filter (fun f => strEndsWith f "_guide.txt")))) ∧
    (∀ content, fs.files path = some content →
      ((∀ l ∈ splitLines content.data, GuideLoader.parseLine l = none) →
        GuideLoader.load fs path = .error .empty) ∧
      ((∃ l ∈ splitLines content.data, GuideLoader.parseLine l ≠ none) →
        ∃ steps, GuideLoader.load fs path = .ok steps)) := by
  constructor
  · intro h
    simp [GuideLoader.load, h, GuideLoader.availableGuides]
  · intro content h
    constructor
    · intro hnone
      have hd : GuideLoader.parseLines (splitLines content.data) = [] :=
        (GuideLoader.parseLines_eq_nil_iff _).mpr hnone
      simp [GuideLoader.load, h, hd]
    · intro hsome
      have hd : GuideLoader.parseLines (splitLines content.data) ≠ [] := by
        intro hcon
        rcases hsome with ⟨l, hl, hne⟩
        exact hne ((GuideLoader.parseLines_eq_nil_iff _).mp hcon l hl)
      refine ⟨GuideLoader.sortedSteps (GuideLoader.parseLines (splitLines content.data)), ?_⟩
      simp only [GuideLoader.load, h]
      rw [if_neg (by simpa using hd)]

/-- A witness: the two failure cases and the success case each evaluated on
a concrete filesystem. -/
theorem guideLoader_load_cases_witness :
    GuideLoader.load fsEx "missing.txt"
      = .error (.notFound ((fsEx.dirListing "missing.txt").filter (fun f => strEndsWith f "_guide.txt"))) ∧
    GuideLoader.load fsE "e" = .error .empty ∧
    (∃ steps, GuideLoader.load fsW "g" = .ok steps) :=
  ⟨(guideLoader_load_cases fsEx "missing.txt").1 rfl,
   ((guideLoader_load_cases fsE "e").2 "no steps here" rfl).1 (by decide),
   ((guideLoader_load_cases fsW "g").2 "Step 1: A\nStep 2: B" rfl).2
     ⟨"Step 1: A".data, by decide, by decide⟩⟩

/-- C10: when a resume checkpoint path is supplied but nothing is stored at
that path, the run is exactly a fresh run over the same inputs. -/
theorem run_resume_missing (env : RunEnv) (fs : FileSys) (cf : Option String)
    (spec guide_file p : String) (cks : CkStore) (h : cks p = none) :
    WorkflowEngine.run env fs cf spec guide_file (some p) cks
      = WorkflowEngine.run env fs cf spec guide_file none cks := by
  simp only [WorkflowEngine.run, h]

/-- A witness: resuming a two-step run from an absent checkpoint file
behaves like the fresh run. -/
theorem run_resume_missing_witness :
    WorkflowEngine.run envW fsW none "sp" "g" (some "ck") emptyCk
      = WorkflowEngine.run envW fsW none "sp" "g" none emptyCk :=
  run_resume_missing envW fsW none "sp" "g" "ck" emptyCk rfl

theorem ModelPipeline.iterLoop_spec (step : String → Except GenError String) :
    ∀ (fuel : Nat) (cur r : String) (k : Nat),
      ModelPipeline.iterLoop step fuel cur = .ok (r, k) →
      k ≤ fuel ∧
      ModelPipeline.iterTraj step cur k = .ok r ∧
      (∀ i, i + 1 < k →
        ModelPipeline.iterTraj step cur (i + 1) ≠ ModelPipeline.iterTraj step cur i) ∧
      (k < fuel → 1 ≤ k ∧
        ModelPipeline.iterTraj step cur k = ModelPipeline.iterTraj step cur (k - 1)) := by
  intro fuel
  induction fuel with
  | zero =>
    intro cur r k h
    simp only [ModelPipeline.iterLoop, Except.ok.injEq, Prod.mk.injEq] at h
    obtain ⟨hr, hk⟩ := h
    subst hr
    subst hk
    refine ⟨Nat.le_refl 0, rfl, ?_, ?_⟩
    · intro i hi
      exact absurd hi (by omega)
    · intro hlt
      exact absurd hlt (by omega)
  | succ fuel ih =>
    intro cur r k h
    cases hstep : step cur with
    | error e =>
      simp only [ModelPipeline.iterLoop, hstep] at h
      exact Except.noConfusion h
    | ok new =>
      by_cases hnc : new = cur
      · simp only [ModelPipeline.iterLoop, hstep, if_pos hnc, Except.ok.injEq,
          Prod.mk.injEq] at h
        obtain ⟨hr, hk⟩ := h
        subst hr
        subst hk
        refine ⟨by omega, ?_, ?_, ?_⟩
        · simp [ModelPipeline.iterTraj, hstep, hnc]
        · intro i hi
          exact absurd hi (by omega)
        · intro _
          exact ⟨Nat.le_refl 1, by simp [ModelPipeline.iterTraj, hstep, hnc]⟩
      · cases hrec : ModelPipeline.iterLoop step fuel new with
        | error e =>
          simp only [ModelPipeline.iterLoop, hstep, if_neg hnc, hrec] at h
          exact Except.noConfusion h
        | ok p =>
          obtain ⟨r0, k0⟩ := p
          simp only [ModelPipeline.iterLoop, hstep, if_neg hnc, hrec, Except.ok.injEq,
            Prod.mk.injEq] at h
          obtain ⟨hr, hk⟩ := h
          subst hr
          subst hk
          obtain ⟨h1, h2, h3, h4⟩ := ih new r0 k0 hrec
          have htshift : ∀ j, ModelPipeline.iterTraj step cur (j + 1)
              = ModelPipeline.iterTraj step new j := by
            intro j
            simp [ModelPipeline.iterTraj, hstep]
          refine ⟨by omega, ?_, ?_, ?_⟩
          · rw [htshift k0]
            exact h2
          · intro i hi
            cases i with
            | zero =>
              rw [htshift 0]
              simp only [ModelPipeline.iterTraj]
              intro hcon
              exact hnc (by simpa using hcon)
            | succ i' =>
              rw [htshift (i' + 1), htshift i']
              exact h3 i' (by omega)
          · intro hlt
            obtain ⟨hge, heq⟩ := h4 (by omega)
            refine ⟨by omega, ?_⟩
            have hidx : k0 + 1 - 1 = (k0 - 1) + 1 := by omega
            rw [htshift k0, hidx, htshift (k0 - 1)]
            exact heq

/-- C3: each iterative stage makes at most max_iterations generation calls;
the text it returns is the one reached after exactly the calls it made, no
pass continues once a call's result equals the current text, and when the
stage stops before the pass cap it is because the last call's result
equalled the text it was given. When the cap is reached without such
equality, the returned text is the last produced one. -/
theorem iterative_stage_behavior (cfg : Config) (query : GenQuery) (ctx : StepContext) :
    (∀ r k, ModelPipeline.error_correction cfg query ctx = .ok (r, k) →
      k ≤ cfg.max_iterations ∧
      ModelPipeline.iterTraj (ModelPipeline.correction_pass cfg query ctx) ctx.draft k = .ok r ∧
      (∀ i, i + 1 < k →
        ModelPipeline.iterTraj (ModelPipeline.correction_pass cfg query ctx) ctx.draft (i + 1)
          ≠ ModelPipeline.iterTraj (ModelPipeline.correction_pass cfg query ctx) ctx.draft i) ∧
      (k < cfg.max_iterations → 1 ≤ k ∧
        ModelPipeline.iterTraj (ModelPipeline.correction_pass cfg query ctx) ctx.draft k
          = ModelPipeline.iterTraj (ModelPipeline.correction_pass cfg query ctx) ctx.draft (k - 1))) ∧
    (∀ r k, ModelPipeline.security_hardening cfg query ctx = .ok (r, k) →
      k ≤ cfg.max_iterations ∧
      ModelPipeline.iterTraj (ModelPipeline.security_pass cfg query ctx) ctx.corrected k = .ok r ∧
      (∀ i, i + 1 < k →
        ModelPipeline.iterTraj (ModelPipeline.security_pass cfg query ctx) ctx.corrected (i + 1)
          ≠ ModelPipeline.iterTraj (ModelPipeline.security_pass cfg query ctx) ctx.corrected i) ∧
      (k < cfg.max_iterations → 1 ≤ k ∧
        ModelPipeline.iterTraj (ModelPipeline.security_pass cfg query ctx) ctx.corrected k
          = ModelPipeline.iterTraj (ModelPipeline.security_pass cfg query ctx) ctx.corrected (k - 1))) :=
  ⟨fun _ _ h => ModelPipeline.iterLoop_spec _ _ _ _ _ h,
   fun _ _ h => ModelPipeline.iterLoop_spec _ _ _ _ _ h⟩

/-- A witness: the error-correction stage of a default configuration with a
constant client stops after two calls from a differing draft, and the
characterization evaluates there. -/
theorem iterative_stage_behavior_witness :
    2 ≤ ({} : Config).max_iterations ∧
    ModelPipeline.iterTraj (ModelPipeline.correction_pass {} qB ctxC4) ctxC4.draft 2 = .ok "b" ∧
    (∀ i, i + 1 < 2 →
      ModelPipeline.iterTraj (ModelPipeline.correction_pass {} qB ctxC4) ctxC4.draft (i + 1)
        ≠ ModelPipeline.iterTraj (ModelPipeline.correction_pass {} qB ctxC4) ctxC4.draft i) ∧
    (2 < ({} : Config).max_iterations → 1 ≤ 2 ∧
      ModelPipeline.iterTraj (ModelPipeline.correction_pass {} qB ctxC4) ctxC4.draft 2
        = ModelPipeline.iterTraj (ModelPipeline.correction_pass {} qB ctxC4) ctxC4.draft (2 - 1)) :=
  (iterative_stage_behavior {} qB ctxC4).1 "b" 2 rfl

/-- C4 (amended): when every generation call of the Refine stage returns one
identical string equal to the stage's starting text (the draft), the stage
performs exactly one generation call before stopping. -/
theorem refine_converges_in_one_call (cfg : Config) (query : GenQuery) (ctx : StepContext)
    (s : String) (hall : ∀ req, query req = .ok s) (hdraft : ctx.draft = s)
    (hiter : 1 ≤ cfg.max_iterations) :
    ModelPipeline.error_correction cfg query ctx = .ok (s, 1) := by
  unfold ModelPipeline.error_correction
  obtain ⟨m, hm⟩ : ∃ m, cfg.max_iterations = m + 1 := ⟨cfg.max_iterations - 1, by omega⟩
  rw [hm, hdraft]
  simp [ModelPipeline.iterLoop, ModelPipeline.correction_pass, hall]

/-- A witness: one call suffices when the draft already equals the constant
client answer. -/
theorem refine_converges_in_one_call_witness :
    ModelPipeline.error_correction {} qX ctxX = .ok ("X", 1) :=
  refine_converges_in_one_call {} qX ctxX "X" (fun _ => rfl) rfl (by decide)

/-- C4 counterexample: every generation call of the stage returns the one
identical string b and the iteration cap is at least one, yet the stage
performs two generation calls, not one, because the draft a differs from b. -/
theorem refine_two_calls_counterexample :
    (∀ req, qB req = .ok "b") ∧ 1 ≤ ({} : Config).max_iterations ∧
    ModelPipeline.error_correction {} qB ctxC4 = .ok ("b", 2) :=
  ⟨fun _ => rfl, by decide, rfl⟩

theorem GuideLoader.lookup_cons_eq (k a : Nat) (b : String) (t : List (Nat × String)) :
    List.lookup k ((a, b) :: t) = if k = a then some b else List.lookup k t := by
  simp only [List.lookup]
  by_cases h : k = a
  · simp [h]
  · have hb : (k == a) = false := by simpa using h
    simp [hb, h]

theorem GuideLoader.lookup_dictInsert (k n : Nat) (v : String) :
    ∀ d : List (Nat × String),
      (GuideLoader.dictInsert n v d).lookup k = if n = k then some v else d.lookup k := by
  intro d
  induction d with
  | nil =>
    rw [show GuideLoader.dictInsert n v [] = [(n, v)] from rfl, GuideLoader.lookup_cons_eq]
    by_cases hk : k = n
    · simp [hk]
    · have hnk : ¬ n = k := fun hcon => hk hcon.symm
      simp [hk, hnk, List.lookup]
  | cons p t ih =>
    obtain ⟨a, b⟩ := p
    by_cases han : a = n
    · subst han
      rw [show GuideLoader.dictInsert a v ((a, b) :: t) = (a, v) :: t from by
        simp [GuideLoader.dictInsert]]
      rw [GuideLoader.lookup_cons_eq, GuideLoader.lookup_cons_eq]
      by_cases hk : k = a
      · simp [hk]
      · have hnk : ¬ a = k := fun hcon => hk hcon.symm
        simp [hk, hnk]
    · rw [show GuideLoader.dictInsert n v ((a, b) :: t) = (a, b) :: GuideLoader.dictInsert n v t
        from by simp [GuideLoader.dictInsert, han]]
      rw [GuideLoader.lookup_cons_eq, GuideLoader.lookup_cons_eq, ih]
      by_cases hk : k = a
      · have hna : ¬ n = a := fun hcon => han hcon.symm
        simp [hk, hna]
      · simp [hk]

theorem GuideLoader.lookup_foldl_parse (k : Nat) :
    ∀ (lines : List (List Char)) (d : List (Nat × String)),
      (lines.foldl
        (fun d l =>
          match GuideLoader.parseLine l with
          | some (n, desc) => GuideLoader.dictInsert n desc d
          | none => d) d).lookup k
      = lines.foldl
          (fun acc l =>
            match GuideLoader.parseLine l with
            | some (n, d) => if n = k then some d else acc
            | none => acc)
          (d.lookup k) := by
  intro lines
  induction lines with
  | nil => intro d; rfl
  | cons l ls ih =>
    intro d
    simp only [List.foldl_cons]
    rw [ih]
    cases hpl : GuideLoader.parseLine l with
    | none => rfl
    | some p =>
      obtain ⟨n, desc⟩ := p
      rw [GuideLoader.lookup_dictInsert]

theorem GuideLoader.lookup_parseLines_eq_lastMatch (lines : List (List Char)) (k : Nat) :
    (GuideLoader.parseLines lines).lookup k = GuideLoader.lastMatch lines k := by
  unfold GuideLoader.parseLines GuideLoader.lastMatch
  rw [GuideLoader.lookup_foldl_parse]
  rfl

theorem GuideLoader.keys_dictInsert (n : Nat) (v : String) :
    ∀ d : List (Nat × String),
      (GuideLoader.dictInsert n v d).map Prod.fst
        = if n ∈ d.map Prod.fst then d.map Prod.fst else d.map Prod.fst ++ [n] := by
  intro d
  induction d with
  | nil => simp [GuideLoader.dictInsert]
  | cons p t ih =>
    obtain ⟨a, b⟩ := p
    by_cases han : a = n
    · subst han
      simp [GuideLoader.dictInsert]
    · have hne : ¬ n = a := fun hcon => han hcon.symm
      by_cases hmem : n ∈ t.map Prod.fst
      · simp [GuideLoader.dictInsert, han, ih, hmem, hne]
      · simp [GuideLoader.dictInsert, han, ih, hmem, hne]

theorem GuideLoader.nodup_keys_dictInsert (n : Nat) (v : String) (d : List (Nat × String))
    (h : (d.map Prod.fst).Nodup) : ((GuideLoader.dictInsert n v d).map Prod.fst).Nodup := by
  rw [GuideLoader.keys_dictInsert]
  by_cases hmem : n ∈ d.map Prod.fst
  · simpa [hmem] using h
  · simp [hmem, List.nodup_append, h]

theorem GuideLoader.nodup_keys_parseLines (lines : List (List Char)) :
    ((GuideLoader.parseLines lines).map Prod.fst).Nodup := by
  unfold GuideLoader.parseLines
  have hgen : ∀ d : List (Nat × String), (d.map Prod.fst).Nodup →
      ((lines.foldl
        (fun d l =>
          match GuideLoader.parseLine l with
          | some (n, desc) => GuideLoader.dictInsert n desc d
          | none => d) d).map Prod.fst).Nodup := by
    induction lines with
    | nil => intro d hd; simpa using hd
    | cons l ls ih =>
      intro d hd
      simp only [List.foldl_cons]
      cases hpl : GuideLoader.parseLine l with
      | none => exact ih d hd
      | some p => exact ih _ (GuideLoader.nodup_keys_dictInsert p.1 p.2 d hd)
  exact hgen [] (by simp)

theorem GuideLoader.lookup_eq_none_iff (k : Nat) :
    ∀ d : List (Nat × String), d.lookup k = none ↔ k ∉ d.map Prod.fst := by
  intro d
  induction d with
  | nil => simp [List.lookup]
  | cons p t ih =>
    obtain ⟨a, b⟩ := p
    rw [GuideLoader.lookup_cons_eq]
    by_cases hk : k = a <;> simp [hk, ih]

/-- C5: the loader returns descriptions in ascending ordinal order whatever
the file order, a duplicated ordinal keeps the description of the last such
line, and the out-of-order example parses to First, Third, Fifth. -/
theorem guide_parse_ordering (fs : FileSys) (path content : String) (steps : List String)
    (hfile : fs.files path = some content)
    (hload : GuideLoader.load fs path = .ok steps) :
    (∃ ks : List Nat,
      ks.Sorted (· < ·) ∧
      (∀ n, n ∈ ks ↔ GuideLoader.lastMatch (splitLines content.data) n ≠ none) ∧
      steps = ks.filterMap (GuideLoader.lastMatch (splitLines content.data))) ∧
    GuideLoader.load fsEx "guide.txt" = .ok ["First", "Third", "Fifth"] := by
  constructor
  · simp only [GuideLoader.load, hfile] at hload
    set d := GuideLoader.parseLines (splitLines content.data) with hd
    by_cases hde : d.isEmpty
    · rw [if_pos hde] at hload
      exact Except.noConfusion hload
    · rw [if_neg hde] at hload
      have hsteps : steps = GuideLoader.sortedSteps d := by
        have := hload
        simp only [Except.ok.injEq] at this
        exact this.symm
      refine ⟨List.insertionSort (· ≤ ·) (d.map Prod.fst), ?_, ?_, ?_⟩
      · have hsorted : (List.insertionSort (· ≤ ·) (d.map Prod.fst)).Sorted (· ≤ ·) :=
          List.sorted_insertionSort (· ≤ ·) (d.map Prod.fst)
        have hnodup : (List.insertionSort (· ≤ ·) (d.map Prod.fst)).Nodup :=
          ((List.perm_insertionSort (· ≤ ·) (d.map Prod.fst)).symm).nodup
            (GuideLoader.nodup_keys_parseLines _)
        exact hsorted.lt_of_le hnodup
      · intro n
        rw [(List.perm_insertionSort (· ≤ ·) (d.map Prod.fst)).mem_iff]
        rw [← GuideLoader.lookup_parseLines_eq_lastMatch]
        constructor
        · intro hmem hcon
          exact ((GuideLoader.lookup_eq_none_iff n d).mp hcon) hmem
        · intro hne
          by_contra hmem
          exact hne ((GuideLoader.lookup_eq_none_iff n d).mpr hmem)
      · rw [hsteps]
        unfold GuideLoader.sortedSteps
        exact List.filterMap_congr
          (fun k _ => GuideLoader.lookup_parseLines_eq_lastMatch (splitLines content.data) k)
  · rfl

theorem chain_ctx_ne_empty (ctx g out : String) :
    ctx ++ "\n\n--- Output from " ++ g ++ " ---\n" ++ out ≠ "" := by
  intro h
  have hlen := congrArg String.length h
  simp only [String.length_append] at hlen
  have h1 : ("\n\n--- Output from " : String).length = 18 := rfl
  have h2 : (" ---\n" : String).length = 5 := rfl
  have h3 : ("" : String).length = 0 := rfl
  omega

theorem GuideChain.runAux_trace (env : RunEnv) (fs : FileSys) (ckd : Option String)
    (spec : String) :
    ∀ (guides : List String) (idx : Nat) (ctx : String) (cks : CkStore),
      (∀ e0, ((GuideChain.runAux env fs ckd spec guides idx ctx cks).2.1)[0]? = some e0 →
        e0.enhanced_spec = GuideChain.enhanced_spec spec ctx) ∧
      (∀ n e e', ((GuideChain.runAux env fs ckd spec guides idx ctx cks).2.1)[n]? = some e →
        ((GuideChain.runAux env fs ckd spec guides idx ctx cks).2.1)[n + 1]? = some e' →
        ∃ a, e'.enhanced_spec
          = "Previous context:\n" ++ a ++ e.output ++ "\n\nCurrent spec:\n" ++ spec) := by
  intro guides
  induction guides with
  | nil =>
    intro idx ctx cks
    constructor
    · intro e0 h
      simp [GuideChain.runAux] at h
    · intro n e e' h h'
      simp [GuideChain.runAux] at h
  | cons g rest ih =>
    intro idx ctx cks
    cases hrun : WorkflowEngine.run
        { env with cfg := { env.cfg with output_file := GuideChain.output_name idx g } } fs
        (ckd.map (fun d => GuideChain.checkpoint_name d idx g))
        (GuideChain.enhanced_spec spec ctx) g none cks with
    | mk res cks' =>
      cases res with
      | error e =>
        constructor
        · intro e0 h
          simp only [GuideChain.runAux, hrun] at h
          simp at h
        · intro n e1 e' h h'
          simp only [GuideChain.runAux, hrun] at h
          simp at h
      | ok out =>
        have htr : (GuideChain.runAux env fs ckd spec (g :: rest) idx ctx cks).2.1
            = { enhanced_spec := GuideChain.enhanced_spec spec ctx, guide_file := g,
                output := out }
              :: (GuideChain.runAux env fs ckd spec rest (idx + 1)
                  (ctx ++ "\n\n--- Output from " ++ g ++ " ---\n" ++ out) cks').2.1 := by
          simp only [GuideChain.runAux, hrun]
        constructor
        · intro e0 h
          rw [htr] at h
          simp only [List.getElem?_cons_zero, Option.some.injEq] at h
          rw [← h]
        · intro n e1 e' h h'
          rw [htr] at h
          rw [htr] at h'
          cases n with
          | zero =>
            simp only [List.getElem?_cons_zero, Option.some.injEq] at h
            simp only [List.getElem?_cons_succ] at h'
            have hhead := (ih (idx + 1)
              (ctx ++ "\n\n--- Output from " ++ g ++ " ---\n" ++ out) cks').1 e' h'
            rw [hhead]
            rw [GuideChain.enhanced_spec, if_neg (chain_ctx_ne_empty ctx g out)]
            refine ⟨ctx ++ "\n\n--- Output from " ++ g ++ " ---\n", ?_⟩
            rw [← h]
            simp [String.append_assoc]
          | succ n' =>
            simp only [List.getElem?_cons_succ] at h h'
            exact (ih (idx + 1)
              (ctx ++ "\n\n--- Output from " ++ g ++ " ---\n" ++ out) cks').2 n' e1 e' h h'

/-- C6: along any chain run, the enhanced specification handed to each
subsequent guide is the original specification behind a Previous context
block that contains, as a literal substring, the full output returned by
the previous guide's run; the first guide receives the specification
unmodified. -/
theorem chain_context_propagation (env : RunEnv) (fs : FileSys) (ckd : Option String)
    (spec : String) (guides : List String) (cks : CkStore) :
    (∀ e0, ((GuideChain.run env fs ckd spec guides cks).2.1)[0]? = some e0 →
      e0.enhanced_spec = spec) ∧
    (∀ n e e', ((GuideChain.run env fs ckd spec guides cks).2.1)[n]? = some e →
      ((GuideChain.run env fs ckd spec guides cks).2.1)[n + 1]? = some e' →
      ∃ a, e'.enhanced_spec
        = "Previous context:\n" ++ a ++ e.output ++ "\n\nCurrent spec:\n" ++ spec) := by
  have h := GuideChain.runAux_trace env fs ckd spec guides 0 "" cks
  refine ⟨?_, h.2⟩
  intro e0 he0
  rw [h.1 e0 he0]
  rfl

/-- A witness: in the concrete two-guide chain the second guide's enhanced
specification contains the first guide's returned output. -/
theorem chain_context_propagation_witness :
    ∃ a, (ChainEntry.mk especW "g" outW).enhanced_spec
      = "Previous context:\n" ++ a ++ (ChainEntry.mk "sp" "g" outW).output
        ++ "\n\nCurrent spec:\n" ++ "sp" :=
  (chain_context_propagation envW fsW none "sp" ["g", "g"] emptyCk).2 0
    (ChainEntry.mk "sp" "g" outW) (ChainEntry.mk especW "g" outW) rfl rfl

theorem ModelPipeline.process_step_number_irrel (cfg : Config) (hooks : PipelineHooks)
    (query : GenQuery) (a b : Nat) (sd sp po : String) :
    ModelPipeline.process cfg hooks query
      { step_number := a, step_description := sd, spec := sp, previous_output := po }
    = ModelPipeline.process cfg hooks query
      { step_number := b, step_description := sd, spec := sp, previous_output := po } := rfl

theorem WorkflowEngine.runSteps_append_ok (env : RunEnv) (g sc : String) (cf : Option String) :
    ∀ (l1 : List String) (l2 : List String) (i : Nat) (st st1 : StateManager)
      (cks cks1 : CkStore),
      WorkflowEngine.runSteps env g sc cf l1 i st cks = (.ok st1, cks1) →
      WorkflowEngine.runSteps env g sc cf (l1 ++ l2) i st cks
        = WorkflowEngine.runSteps env g sc cf l2 (i + l1.length) st1 cks1 := by
  intro l1
  induction l1 with
  | nil =>
    intro l2 i st st1 cks cks1 h
    simp only [WorkflowEngine.runSteps, Prod.mk.injEq, Except.ok.injEq] at h
    obtain ⟨h1, h2⟩ := h
    subst h1
    subst h2
    simp
  | cons d t ih =>
    intro l2 i st st1 cks cks1 h
    simp only [WorkflowEngine.runSteps, List.cons_append] at h ⊢
    cases hp : ModelPipeline.process env.cfg env.hooks env.query
        { step_number := i + 1, step_description := d, spec := sc,
          previous_output := st.get_context } with
    | error e =>
      rw [hp] at h
      exact absurd (congrArg Prod.fst h) (by simp)
    | ok out =>
      rw [hp] at h
      have hidx : i + (d :: t).length = i + 1 + t.length := by
        simp [List.length_cons]
        omega
      rw [hidx]
      exact ih l2 (i + 1) _ st1 _ cks1 h

theorem WorkflowEngine.runSteps_append_error (env : RunEnv) (g sc : String)
    (cf : Option String) :
    ∀ (l1 : List String) (l2 : List String) (i : Nat) (st : StateManager)
      (cks cks1 : CkStore) (e : RunError),
      WorkflowEngine.runSteps env g sc cf l1 i st cks = (.error e, cks1) →
      WorkflowEngine.runSteps env g sc cf (l1 ++ l2) i st cks = (.error e, cks1) := by
  intro l1
  induction l1 with
  | nil =>
    intro l2 i st cks cks1 e h
    simp only [WorkflowEngine.runSteps, Prod.mk.injEq] at h
    exact Except.noConfusion h.1
  | cons d t ih =>
    intro l2 i st cks cks1 e h
    simp only [WorkflowEngine.runSteps, List.cons_append] at h ⊢
    cases hp : ModelPipeline.process env.cfg env.hooks env.query
        { step_number := i + 1, step_description := d, spec := sc,
          previous_output := st.get_context } with
    | error e' =>
      rw [hp] at h
      exact h
    | ok out =>
      rw [hp] at h
      exact ih l2 (i + 1) _ _ cks1 e h

theorem WorkflowEngine.runSteps_fst_congr (env : RunEnv) (g sc : String)
    (cf cf' : Option String) :
    ∀ (l : List String) (i i' : Nat) (st : StateManager) (cks cks' : CkStore),
      (WorkflowEngine.runSteps env g sc cf l i st cks).1
        = (WorkflowEngine.runSteps env g sc cf' l i' st cks').1 := by
  intro l
  induction l with
  | nil =>
    intro i i' st cks cks'
    rfl
  | cons d t ih =>
    intro i i' st cks cks'
    simp only [WorkflowEngine.runSteps]
    rw [ModelPipeline.process_step_number_irrel env.cfg env.hooks env.query (i + 1) (i' + 1)
      d sc st.get_context]
    cases hp : ModelPipeline.process env.cfg env.hooks env.query
        { step_number := i' + 1, step_description := d, spec := sc,
          previous_output := st.get_context } with
    | error e => rfl
    | ok out => exact ih (i + 1) (i' + 1) _ _ _

theorem WorkflowEngine.runSteps_index (env : RunEnv) (g sc : String) (cf : Option String) :
    ∀ (l : List String) (i : Nat) (st st' : StateManager) (cks : CkStore),
      (WorkflowEngine.runSteps env g sc cf l i st cks).1 = .ok st' →
      st'.current_step_index = st.current_step_index + l.length := by
  intro l
  induction l with
  | nil =>
    intro i st st' cks h
    simp only [WorkflowEngine.runSteps, Except.ok.injEq] at h
    subst h
    simp
  | cons d t ih =>
    intro i st st' cks h
    simp only [WorkflowEngine.runSteps] at h
    cases hp : ModelPipeline.process env.cfg env.hooks env.query
        { step_number := i + 1, step_description := d, spec := sc,
          previous_output := st.get_context } with
    | error e =>
      rw [hp] at h
      exact Except.noConfusion h
    | ok out =>
      rw [hp] at h
      have := ih (i + 1) _ st' _ h
      rw [this]
      simp [StateManager.add_step_output, List.length_cons]
      omega

theorem WorkflowEngine.runSteps_store (env : RunEnv) (g sc p : String) :
    ∀ (l : List String) (i : Nat) (st st' : StateManager) (cks cks' : CkStore),
      l ≠ [] →
      WorkflowEngine.runSteps env g sc (some p) l i st cks = (.ok st', cks') →
      cks' p = some (WorkflowEngine.mk_checkpoint g sc st'
        (env.ts (i + l.length - 1))).to_dict := by
  intro l
  induction l with
  | nil =>
    intro i st st' cks cks' hne
    exact absurd rfl hne
  | cons d t ih =>
    intro i st st' cks cks' _ h
    simp only [WorkflowEngine.runSteps] at h
    cases hp : ModelPipeline.process env.cfg env.hooks env.query
        { step_number := i + 1, step_description := d, spec := sc,
          previous_output := st.get_context } with
    | error e =>
      rw [hp] at h
      exact absurd (congrArg Prod.fst h) (by simp)
    | ok out =>
      rw [hp] at h
      by_cases ht : t = []
      · subst ht
        have h' : ((Except.ok (st.add_step_output out) : Except RunError StateManager),
            (WorkflowEngine.mk_checkpoint g sc (st.add_step_output out) (env.ts i)).save p cks)
            = (Except.ok st', cks') := h
        have h1 := congrArg Prod.fst h'
        have h2 := congrArg Prod.snd h'
        simp only [Except.ok.injEq] at h1
        subst h1
        have h2' : (WorkflowEngine.mk_checkpoint g sc (st.add_step_output out)
            (env.ts i)).save p cks = cks' := h2
        rw [← h2']
        simp [Checkpoint.save]
      · have := ih (i + 1) _ st' _ cks' ht h
        rw [this]
        have hidx : i + 1 + t.length - 1 = i + (d :: t).length - 1 := by
          simp [List.length_cons]
        rw [hidx]

/-- C7: when a generation call fails while the step after the first K is
being processed, the error propagates unchanged and terminates the run with
the checkpoint storage exactly as it stood after step K; in particular, for
K at least one, the checkpoint path still holds the snapshot taken after
step K, so no checkpoint was written for the in-flight step. -/
theorem generation_failure_preserves_checkpoint (env : RunEnv) (fs : FileSys)
    (p spec guide_file : String) (cks : CkStore) (steps : List String) (K : Nat)
    (stK : StateManager) (cksK : CkStore) (e : GenError)
    (hload : GuideLoader.load fs guide_file = .ok steps)
    (hK : K < steps.length)
    (hfirstK : WorkflowEngine.runSteps env guide_file (WorkflowEngine.resolve_spec fs spec)
        (some p) (steps.take K) 0 {} cks = (.ok stK, cksK))
    (hfail : ModelPipeline.process env.cfg env.hooks env.query
        { step_number := K + 1, step_description := steps[K],
          spec := WorkflowEngine.resolve_spec fs spec,
          previous_output := stK.get_context } = .error e) :
    WorkflowEngine.run env fs (some p) spec guide_file none cks
      = (.error (.generation e), cksK) ∧
    (1 ≤ K → cksK p
      = some (WorkflowEngine.mk_checkpoint guide_file (WorkflowEngine.resolve_spec fs spec)
          stK (env.ts (K - 1))).to_dict) := by
  have hlen : (steps.take K).length = K := by
    simp [List.length_take]
    omega
  constructor
  · have hsplit : WorkflowEngine.runSteps env guide_file
        (WorkflowEngine.resolve_spec fs spec) (some p) steps 0 {} cks
        = (.error (.generation e), cksK) := by
      conv_lhs => rw [← List.take_append_drop K steps]
      rw [WorkflowEngine.runSteps_append_ok env guide_file
        (WorkflowEngine.resolve_spec fs spec) (some p) (steps.take K) (steps.drop K) 0
        {} stK cks cksK hfirstK]
      rw [hlen, List.drop_eq_getElem_cons hK]
      simp only [WorkflowEngine.runSteps, Nat.zero_add]
      rw [hfail]
    simp only [WorkflowEngine.run, hload, List.drop_zero, hsplit]
  · intro hKpos
    have htk : steps.take K ≠ [] := by
      intro hcon
      rw [hcon] at hlen
      simp at hlen
      omega
    have := WorkflowEngine.runSteps_store env guide_file
      (WorkflowEngine.resolve_spec fs spec) p (steps.take K) 0 {} stK cks cksK htk hfirstK
    rw [this, hlen]
    simp

/-- A witness: a client that fails once the accumulated context mentions the
first step's output terminates a two-step run at step two, leaving the step
one checkpoint in place. -/
theorem generation_failure_preserves_checkpoint_witness :
    WorkflowEngine.run envFail fsW (some "ck") "sp" "g" none emptyCk
      = (.error (.generation (.connection "down")), cksK1) ∧
    cksK1 "ck" = some (WorkflowEngine.mk_checkpoint "g"
      (WorkflowEngine.resolve_spec fsW "sp") stK1 (envFail.ts (1 - 1))).to_dict := by
  have h := generation_failure_preserves_checkpoint envFail fsW "ck" "sp" "g" emptyCk
    ["A", "B"] 1 stK1 cksK1 (.connection "down") rfl (by simp) (by rfl) (by rfl)
  exact ⟨h.1, h.2 (by omega)⟩

/-- C1: completing a run from the checkpoint written after the first K
steps of a checkpointing run yields the same final cumulative output as the
uninterrupted run that never checkpointed, given the same generation
client, filesystem, specification and guide. -/
theorem resume_equivalence (env : RunEnv) (fs : FileSys) (p spec guide_file : String)
    (cks : CkStore) (steps : List String) (K : Nat) (out : String)
    (hload : GuideLoader.load fs guide_file = .ok steps)
    (hK : K < steps.length)
    (hfresh : cks p = none)
    (hfull : (WorkflowEngine.run env fs none spec guide_file none cks).1 = .ok out) :
    (WorkflowEngine.run env fs (some p) spec guide_file (some p)
        (WorkflowEngine.runSteps env guide_file (WorkflowEngine.resolve_spec fs spec)
          (some p) (steps.take K) 0 {} cks).2).1 = .ok out := by
  have hlen : (steps.take K).length = K := by
    simp [List.length_take]
    omega
  simp only [WorkflowEngine.run, hload, List.drop_zero] at hfull
  cases hfl : WorkflowEngine.runSteps env guide_file (WorkflowEngine.resolve_spec fs spec)
      none steps 0 {} cks with
  | mk res cF =>
    cases res with
    | error e =>
      rw [hfl] at hfull
      simp at hfull
    | ok stF =>
      rw [hfl] at hfull
      simp only [Except.ok.injEq] at hfull
      by_cases hK0 : K = 0
      · subst hK0
        show (WorkflowEngine.run env fs (some p) spec guide_file (some p) cks).1 = .ok out
        simp only [WorkflowEngine.run, hload, hfresh, List.drop_zero]
        have hc := WorkflowEngine.runSteps_fst_congr env guide_file
          (WorkflowEngine.resolve_spec fs spec) (some p) none steps 0 0 {} cks cks
        rw [hfl] at hc
        cases hrr : WorkflowEngine.runSteps env guide_file
            (WorkflowEngine.resolve_spec fs spec) (some p) steps 0 {} cks with
        | mk rr rc =>
          rw [hrr] at hc
          simp only at hc
          rw [hc]
          simp [hfull]
      · have htk : steps.take K ≠ [] := by
          intro hcon
          rw [hcon] at hlen
          simp at hlen
          omega
        cases hpre : WorkflowEngine.runSteps env guide_file
            (WorkflowEngine.resolve_spec fs spec) none (steps.take K) 0 {} cks with
        | mk pres pc =>
          cases pres with
          | error e =>
            exfalso
            have herr := WorkflowEngine.runSteps_append_error env guide_file
              (WorkflowEngine.resolve_spec fs spec) none (steps.take K) (steps.drop K) 0
              {} cks pc e hpre
            rw [List.take_append_drop] at herr
            rw [hfl] at herr
            exact Except.noConfusion (congrArg Prod.fst herr)
          | ok stK' =>
            have hsuffix := WorkflowEngine.runSteps_append_ok env guide_file
              (WorkflowEngine.resolve_spec fs spec) none (steps.take K) (steps.drop K) 0
              {} stK' cks pc hpre
            rw [List.take_append_drop, hlen, Nat.zero_add] at hsuffix
            rw [hsuffix] at hfl
            cases hpp : WorkflowEngine.runSteps env guide_file
                (WorkflowEngine.resolve_spec fs spec) (some p) (steps.take K) 0 {} cks with
            | mk ppres ppc =>
              have hfst := WorkflowEngine.runSteps_fst_congr env guide_file
                (WorkflowEngine.resolve_spec fs spec) (some p) none (steps.take K) 0 0
                {} cks cks
              rw [hpp, hpre] at hfst
              simp only at hfst
              subst hfst
              have hstore := WorkflowEngine.runSteps_store env guide_file
                (WorkflowEngine.resolve_spec fs spec) p (steps.take K) 0 {} stK' cks ppc
                htk hpp
              rw [hlen, Nat.zero_add] at hstore
              have hidx : stK'.current_step_index = K := by
                have := WorkflowEngine.runSteps_index env guide_file
                  (WorkflowEngine.resolve_spec fs spec) none (steps.take K) 0 {} stK' cks
                  (by rw [hpre])
                rw [this, hlen]
                simp
              show (WorkflowEngine.run env fs (some p) spec guide_file (some p) ppc).1
                = .ok out
              simp only [WorkflowEngine.run, hload, hstore, Checkpoint.from_to]
              show (match WorkflowEngine.runSteps env guide_file
                  (WorkflowEngine.resolve_spec fs spec) (some p)
                  (List.drop stK'.current_step_index steps) stK'.current_step_index stK'
                  ppc with
                | (Except.ok st, cks') => (Except.ok st.cumulative_output, cks')
                | (Except.error e, cks') => (Except.error e, cks')).1 = Except.ok out
              rw [hidx]
              have hc2 := WorkflowEngine.runSteps_fst_congr env guide_file
                (WorkflowEngine.resolve_spec fs spec) (some p) none (steps.drop K) K K
                stK' ppc pc
              rw [hfl] at hc2
              cases hrr : WorkflowEngine.runSteps env guide_file
                  (WorkflowEngine.resolve_spec fs spec) (some p) (steps.drop K) K stK'
                  ppc with
              | mk rr rc =>
                rw [hrr] at hc2
                simp only at hc2
                rw [hc2]
                simp [hfull]

/-- A witness: a two-step run checkpointed after step one and resumed from
that checkpoint reproduces the uninterrupted output. -/
theorem resume_equivalence_witness :
    (WorkflowEngine.run envW fsW (some "ck") "sp" "g" (some "ck")
        (WorkflowEngine.runSteps envW "g" (WorkflowEngine.resolve_spec fsW "sp")
          (some "ck") (["A", "B"].take 1) 0 {} emptyCk).2).1 = .ok outW :=
  resume_equivalence envW fsW "ck" "sp" "g" emptyCk ["A", "B"] 1 outW rfl (by simp)
    rfl rfl

/-- A witness: the ordering theorem evaluated on the example guide file. -/
theorem guide_parse_ordering_witness :
    (∃ ks : List Nat,
      ks.Sorted (· < ·) ∧
      (∀ n, n ∈ ks ↔
        GuideLoader.lastMatch (splitLines ("Step 5: Fifth\nStep 1: First\nStep 3: Third").data) n ≠ none) ∧
      ["First", "Third", "Fifth"]
        = ks.filterMap (GuideLoader.lastMatch (splitLines ("Step 5: Fifth\nStep 1: First\nStep 3: Third").data))) ∧
    GuideLoader.load fsEx "guide.txt" = .ok ["First", "Third", "Fifth"] :=
  guide_parse_ordering fsEx "guide.txt" "Step 5: Fifth\nStep 1: First\nStep 3: Third"
    ["First", "Third", "Fifth"] rfl rfl
